import Mathlib

/-!
Verification of the oneflow distributed execution substrate against its
specification: the IBVerbs message pool
(`oneflow/core/comm_network/ibverbs/ibverbs_message_pool.cpp`), the
`AccessBlobArgCbPhyInstrOperand` mirrored-object enumerators
(`oneflow/core/vm/access_blob_arg_cb_phy_instr_operand.cpp`) and the POSIX
shared-memory wrapper (`oneflow/core/ipc/shared_memory.cpp`).

The C++ code is shallowly embedded: vectors used as stacks become lists whose
head is the vector's back, message buffers (`ActorMsgMR*`) become natural
numbers allocated from a ghost counter, OS calls (`shm_open`, `munmap`,
`shm_unlink`, `mmap`) act on an explicit operating-system state, and the
visitor callbacks of the operand enumerators are represented by the list of
invocations they perform.
-/

namespace OneflowVM

/-! ## IBVerbsMessagePool

Embeds `IBVerbsMessagePool` from
`oneflow/core/comm_network/ibverbs/ibverbs_message_pool.cpp`.

`message_buf_` is a `std::vector<ActorMsgMR*>` used as a stack
(`push_back` / `back` + `pop_back`); we model it as a list whose head is the
vector's back.  `ActorMsgMR*` buffer identities are modelled as naturals drawn
from the ghost counter `next_fresh` (each `BulkAllocMessage` carves
`num_msg_per_bluk_allocation` fresh, pairwise distinct buffers out of a newly
`malloc`ed and RDMA-registered region).  `ibv_mr_buf_` is modelled by
`regions`, recording the `register_memory_size` of each registered region.
Both `GetMessage` and `PutMessage` hold `message_buf_mutex_` for their whole
body, so the sequential state transformers below are exactly the atomic steps
seen by any interleaving. -/

structure PoolState where
  message_size : Nat
  num_msg_per_bluk_allocation : Nat
  message_buf : List Nat
  regions : List Nat
  next_fresh : Nat
deriving DecidableEq, Repr

/-- The pool constructor: empty free-list, no registered regions. -/
def initPool (message_size num_msg_per_bluk_allocation : Nat) : PoolState :=
  { message_size := message_size
    num_msg_per_bluk_allocation := num_msg_per_bluk_allocation
    message_buf := []
    regions := []
    next_fresh := 0 }

/-- Embeds `IBVerbsMessagePool::BulkAllocMessage`: registers one region of size
`message_size * num_msg_per_bluk_allocation`, then pushes one fresh buffer per
loop iteration `i = 0, …, B-1` onto `message_buf_` (so the vector's back, our
list head, is the last buffer pushed). -/
def BulkAllocMessage (s : PoolState) : PoolState :=
  let register_memory_size := s.message_size * s.num_msg_per_bluk_allocation
  { s with
    regions := s.regions ++ [register_memory_size]
    message_buf :=
      ((List.range s.num_msg_per_bluk_allocation).map (s.next_fresh + ·)).reverse
        ++ s.message_buf
    next_fresh := s.next_fresh + s.num_msg_per_bluk_allocation }

/-- Embeds `IBVerbsMessagePool::GetMessageFromBuf`: `back()` then `pop_back()`.
`none` models the undefined behaviour of popping an empty vector. -/
def GetMessageFromBuf (s : PoolState) : Option (Nat × PoolState) :=
  match s.message_buf with
  | [] => none
  | m :: rest => some (m, { s with message_buf := rest })

/-- Embeds `IBVerbsMessagePool::GetMessage`: under the pool lock, pop from the
free-list if it is non-empty, otherwise bulk-allocate first and then pop. -/
def GetMessage (s : PoolState) : Option (Nat × PoolState) :=
  if !s.message_buf.isEmpty then GetMessageFromBuf s
  else GetMessageFromBuf (BulkAllocMessage s)

/-- Embeds `IBVerbsMessagePool::PutMessage`: under the pool lock, `push_back` the
returned buffer onto the free-list. -/
def PutMessage (s : PoolState) (msg_mr : Nat) : PoolState :=
  { s with message_buf := msg_mr :: s.message_buf }

/-- Iterated `GetMessage` ignoring the returned buffers: the pool state after
`n` consecutive `GetMessage` calls (with no intervening `PutMessage`). -/
def getN (s : PoolState) : Nat → Option PoolState
  | 0 => some s
  | n + 1 =>
    match getN s n with
    | some t => (GetMessage t).map Prod.snd
    | none => none

lemma getMessage_cons (msz B m : Nat) (rest regs : List Nat) (nf : Nat) :
    GetMessage ⟨msz, B, m :: rest, regs, nf⟩ = some (m, ⟨msz, B, rest, regs, nf⟩) := by
  simp [GetMessage, GetMessageFromBuf]

lemma getMessage_empty (msz B : Nat) (regs : List Nat) (nf n : Nat) (hB : B = n + 1) :
    GetMessage ⟨msz, B, [], regs, nf⟩ =
      some (nf + n,
        ⟨msz, B, ((List.range n).map (nf + ·)).reverse, regs ++ [msz * B], nf + B⟩) := by
  subst hB
  simp [GetMessage, BulkAllocMessage, GetMessageFromBuf, List.range_succ]

/-- Claim C1: a bulk allocation happens during a `GetMessage` call if and only
if the free-list is empty when that call inspects it; each bulk allocation
registers one region of size `message_size * B` and adds exactly `B` buffers,
of which the in-flight `GetMessage` immediately consumes one, leaving `B - 1`
free; in particular with `B = 4`, after the first `GetMessage` triggered the
initial allocation, the second through fourth calls trigger no allocation and
the fifth triggers exactly one. -/
theorem getMessage_bulk_alloc_iff_free_list_empty :
    (∀ s : PoolState,
       (BulkAllocMessage s).regions
           = s.regions ++ [s.message_size * s.num_msg_per_bluk_allocation] ∧
       (BulkAllocMessage s).message_buf.length
           = s.message_buf.length + s.num_msg_per_bluk_allocation) ∧
    (∀ (s s' : PoolState) (m : Nat),
       0 < s.num_msg_per_bluk_allocation →
       GetMessage s = some (m, s') →
       ((s'.regions.length = s.regions.length + 1) ↔ s.message_buf = []) ∧
       (s.message_buf ≠ [] → s'.regions = s.regions) ∧
       (s.message_buf = [] →
         s'.regions = s.regions ++ [s.message_size * s.num_msg_per_bluk_allocation] ∧
         s'.message_buf.length = s.num_msg_per_bluk_allocation - 1)) ∧
    (∀ message_size : Nat,
       ((getN (initPool message_size 4) 1).map fun t => t.regions.length) = some 1 ∧
       ((getN (initPool message_size 4) 2).map fun t => t.regions.length) = some 1 ∧
       ((getN (initPool message_size 4) 3).map fun t => t.regions.length) = some 1 ∧
       ((getN (initPool message_size 4) 4).map fun t => t.regions.length) = some 1 ∧
       ((getN (initPool message_size 4) 5).map fun t => t.regions.length) = some 2) := by
  refine ⟨?_, ?_, ?_⟩
  · intro s
    constructor
    · rfl
    · simp [BulkAllocMessage]
      omega
  · intro s s' m hB hget
    obtain ⟨msz, B, buf, regs, nf⟩ := s
    cases buf with
    | nil =>
      have hB0 : 0 < B := hB
      obtain ⟨n, rfl⟩ : ∃ n, B = n + 1 := ⟨B - 1, by omega⟩
      rw [getMessage_empty msz (n + 1) regs nf n rfl] at hget
      simp only [Option.some.injEq, Prod.mk.injEq] at hget
      obtain ⟨rfl, rfl⟩ := hget
      refine ⟨by simp, by simp, fun _ => ⟨rfl, by simp⟩⟩
    | cons m0 rest =>
      rw [getMessage_cons] at hget
      simp only [Option.some.injEq, Prod.mk.injEq] at hget
      obtain ⟨rfl, rfl⟩ := hget
      exact ⟨by simp, fun _ => rfl, by simp⟩
  · intro message_size
    exact ⟨rfl, rfl, rfl, rfl, rfl⟩

/-- Witness for C1: a concrete first `GetMessage` on a fresh pool with batch
size 4 and message size 5 triggers the allocation (region count goes from 0 to
1), and the fifth call brings the region count to 2. -/
theorem getMessage_bulk_alloc_iff_free_list_empty_witness :
    (((⟨5, 4, [2, 1, 0], [20], 4⟩ : PoolState).regions.length
        = (initPool 5 4).regions.length + 1) ↔ (initPool 5 4).message_buf = []) ∧
    ((getN (initPool 5 4) 5).map fun t => t.regions.length) = some 2 :=
  ⟨(getMessage_bulk_alloc_iff_free_list_empty.2.1 (initPool 5 4)
      ⟨5, 4, [2, 1, 0], [20], 4⟩ 3 (by decide) rfl).1,
   (getMessage_bulk_alloc_iff_free_list_empty.2.2 5).2.2.2.2⟩

/-- Claim C10: the free-list is a LIFO stack: `PutMessage m` followed
immediately by `GetMessage` returns `m` itself and restores the pool state —
in particular the free-list and the registered-region list — to exactly what
it was before the `PutMessage`, with no bulk allocation in that `GetMessage`. -/
theorem put_then_get_lifo (s : PoolState) (m : Nat) :
    GetMessage (PutMessage s m) = some (m, s) := by
  simp [GetMessage, PutMessage, GetMessageFromBuf]

/-! ### Lease traces (claim C6)

A trace of `GetMessage` / `PutMessage` calls, together with the ghost list of
currently leased buffers.  `runPool` only accepts `put m` when `m` is
currently leased, which is exactly the claim's precondition that `PutMessage`
is only called with previously leased buffers. -/

inductive PoolOp where
  | get : PoolOp
  | put : Nat → PoolOp
deriving DecidableEq, Repr

/-- Runs a trace of pool operations, threading the pool state and the ghost
multiset (as a list) of currently leased buffers.  `none` signals either an
impossible pop from an empty batch (batch size 0) or a `put` of a buffer that
is not currently leased (excluded by the claim's precondition). -/
def runPool : List PoolOp → PoolState → List Nat → Option (PoolState × List Nat)
  | [], s, leased => some (s, leased)
  | PoolOp.get :: ops, s, leased =>
    match GetMessage s with
    | some (m, s1) => runPool ops s1 (m :: leased)
    | none => none
  | PoolOp.put m :: ops, s, leased =>
    if m ∈ leased then runPool ops (PutMessage s m) (leased.erase m) else none

/-- The pool invariant: leased buffers are pairwise distinct, the free-list is
duplicate-free, every buffer seen so far was carved below the fresh counter,
and no buffer is simultaneously leased and free. -/
def PoolInv (s : PoolState) (leased : List Nat) : Prop :=
  leased.Nodup ∧ s.message_buf.Nodup ∧
  (∀ m ∈ leased, m < s.next_fresh) ∧
  (∀ m ∈ s.message_buf, m < s.next_fresh) ∧
  (∀ m ∈ leased, m ∉ s.message_buf)

lemma bulkAlloc_inv (s : PoolState) (leased : List Nat) (h : PoolInv s leased) :
    PoolInv (BulkAllocMessage s) leased := by
  obtain ⟨h1, h2, h3, h4, h5⟩ := h
  refine ⟨h1, ?_, ?_, ?_, ?_⟩
  · simp [BulkAllocMessage, List.nodup_append, List.nodup_reverse]
    refine ⟨List.Nodup.map (fun a b hab => by omega) (List.nodup_range _), h2, ?_⟩
    intro x hx hx2
    have := h4 x hx2
    simp [List.mem_map, List.mem_range] at hx
    omega
  · intro m hm
    have := h3 m hm
    simp [BulkAllocMessage]
    omega
  · intro m hm
    simp [BulkAllocMessage] at hm ⊢
    rcases hm with ⟨i, hi, rfl⟩ | hm
    · omega
    · have := h4 m hm
      omega
  · intro m hm
    have hlt := h3 m hm
    simp [BulkAllocMessage]
    constructor
    · intro i hi
      omega
    · exact h5 m hm

lemma getMessage_inv (s s1 : PoolState) (leased : List Nat) (m : Nat)
    (h : PoolInv s leased) (hget : GetMessage s = some (m, s1)) :
    PoolInv s1 (m :: leased) := by
  have key : ∀ (t : PoolState), PoolInv t leased → GetMessageFromBuf t = some (m, s1) →
      PoolInv s1 (m :: leased) := by
    intro t ht hbuf
    obtain ⟨h1, h2, h3, h4, h5⟩ := ht
    obtain ⟨msz, B, buf, regs, nf⟩ := t
    cases buf with
    | nil => simp [GetMessageFromBuf] at hbuf
    | cons m0 rest =>
      simp only [GetMessageFromBuf, Option.some.injEq, Prod.mk.injEq] at hbuf
      obtain ⟨rfl, rfl⟩ := hbuf
      refine ⟨?_, ?_, ?_, ?_, ?_⟩
      · exact List.Nodup.cons (fun hmem => h5 m0 hmem (by simp)) h1
      · exact (List.nodup_cons.mp h2).2
      · intro x hx
        rcases List.mem_cons.mp hx with rfl | hx
        · exact h4 x (by simp)
        · exact h3 x hx
      · intro x hx
        exact h4 x (List.mem_cons_of_mem _ hx)
      · intro x hx
        rcases List.mem_cons.mp hx with rfl | hx
        · exact (List.nodup_cons.mp h2).1
        · intro hx2
          exact h5 x hx (List.mem_cons_of_mem _ hx2)
  unfold GetMessage at hget
  by_cases hbuf : s.message_buf.isEmpty
  · simp [hbuf] at hget
    exact key _ (bulkAlloc_inv s leased h) hget
  · simp [hbuf] at hget
    exact key s h hget

lemma putMessage_inv (s : PoolState) (leased : List Nat) (m : Nat)
    (h : PoolInv s leased) (hm : m ∈ leased) :
    PoolInv (PutMessage s m) (leased.erase m) := by
  obtain ⟨h1, h2, h3, h4, h5⟩ := h
  refine ⟨h1.erase m, ?_, ?_, ?_, ?_⟩
  · exact List.Nodup.cons (h5 m hm) h2
  · intro x hx
    exact h3 x (List.mem_of_mem_erase hx)
  · intro x hx
    rcases List.mem_cons.mp hx with rfl | hx
    · exact h3 x hm
    · exact h4 x hx
  · intro x hx
    have hxl : x ≠ m ∧ x ∈ leased := (List.Nodup.mem_erase_iff h1).mp hx
    intro hx2
    rcases List.mem_cons.mp hx2 with rfl | hx2
    · exact hxl.1 rfl
    · exact h5 x hxl.2 hx2

lemma runPool_inv : ∀ (ops : List PoolOp) (s : PoolState) (leased : List Nat)
    (s1 : PoolState) (l1 : List Nat),
    PoolInv s leased → runPool ops s leased = some (s1, l1) → PoolInv s1 l1 := by
  intro ops
  induction ops with
  | nil =>
    intro s leased s1 l1 h hrun
    simp only [runPool, Option.some.injEq, Prod.mk.injEq] at hrun
    obtain ⟨rfl, rfl⟩ := hrun
    exact h
  | cons op rest ih =>
    intro s leased s1 l1 h hrun
    cases op with
    | get =>
      simp only [runPool] at hrun
      cases hg : GetMessage s with
      | none => rw [hg] at hrun; simp at hrun
      | some p =>
        obtain ⟨m, s2⟩ := p
        rw [hg] at hrun
        exact ih s2 (m :: leased) s1 l1 (getMessage_inv s s2 leased m h hg) hrun
    | put m =>
      simp only [runPool] at hrun
      by_cases hm : m ∈ leased
      · rw [if_pos hm] at hrun
        exact ih _ _ s1 l1 (putMessage_inv s leased m h hm) hrun
      · rw [if_neg hm] at hrun
        simp at hrun

/-- Claim C6: along every trace of `GetMessage`/`PutMessage` calls in which
`PutMessage` is only applied to currently leased buffers, the simultaneously
leased buffers are pairwise distinct, no leased buffer sits in the free-list,
and the next `GetMessage` can never return a buffer that is still leased (a
leased buffer re-enters circulation only after a matching `PutMessage`). -/
theorem pool_no_double_lease (message_size B : Nat) (ops : List PoolOp)
    (s1 : PoolState) (leased : List Nat)
    (hrun : runPool ops (initPool message_size B) [] = some (s1, leased)) :
    leased.Nodup ∧ (∀ m ∈ leased, m ∉ s1.message_buf) ∧
    (∀ (m : Nat) (s2 : PoolState), GetMessage s1 = some (m, s2) → m ∉ leased) := by
  have hinv : PoolInv s1 leased := by
    refine runPool_inv ops (initPool message_size B) [] s1 leased ?_ hrun
    refine ⟨List.nodup_nil, List.nodup_nil, ?_, ?_, ?_⟩ <;> simp [initPool]
  refine ⟨hinv.1, hinv.2.2.2.2, ?_⟩
  intro m s2 hget
  have := getMessage_inv s1 s2 leased m hinv hget
  exact (List.nodup_cons.mp this.1).1

/-- Witness for C6: the trace `get` on a pool with batch size 2 leases buffer
1 and leaves buffer 0 free; the conclusions hold at that concrete state. -/
theorem pool_no_double_lease_witness :
    ([1] : List Nat).Nodup ∧
    (∀ m ∈ ([1] : List Nat), m ∉ (⟨1, 2, [0], [2], 2⟩ : PoolState).message_buf) :=
  ⟨(pool_no_double_lease 1 2 [PoolOp.get] ⟨1, 2, [0], [2], 2⟩ [1] rfl).1,
   (pool_no_double_lease 1 2 [PoolOp.get] ⟨1, 2, [0], [2], 2⟩ [1] rfl).2.1⟩

end OneflowVM

namespace OneflowVM

/-! ## AccessBlobArgCbPhyInstrOperand

Embeds `oneflow/core/vm/access_blob_arg_cb_phy_instr_operand.cpp`.  The
operand stores the modifier string fixed at construction and a reference to
the compute local dependency object; each `ForEach…MirroredObject` method
invokes the visitor `DoEach(nullptr, compute_local_dep_object_->
mut_mirrored_object())` exactly when the modifier matches its tag.  We
represent the visitor by the list of argument pairs it is invoked with, with
`none` standing for the null `infer` pointer and a `MirroredObject` identified
by a natural number. -/

structure LocalDepObject where
  mirrored_object : Nat
deriving DecidableEq, Repr

/-- Embeds `LocalDepObject::mut_mirrored_object()`: the dependency object's mirrored
object. -/
def LocalDepObject.mut_mirrored_object (o : LocalDepObject) : Nat :=
  o.mirrored_object

structure AccessBlobArgCbPhyInstrOperand where
  modifier : String
  compute_local_dep_object : LocalDepObject
deriving DecidableEq, Repr

/-- Embeds `AccessBlobArgCbPhyInstrOperand::ForEachConstMirroredObject`: invokes the
visitor once with `(nullptr, compute)` when `modifier_ == "const"`, zero times
otherwise. -/
def ForEachConstMirroredObject (op : AccessBlobArgCbPhyInstrOperand) :
    List (Option Nat × Nat) :=
  if op.modifier = "const" then
    [(none, op.compute_local_dep_object.mut_mirrored_object)]
  else []

/-- Embeds `AccessBlobArgCbPhyInstrOperand::ForEachMutMirroredObject`: invokes the
visitor once with `(nullptr, compute)` when `modifier_ == "mut"`, zero times
otherwise. -/
def ForEachMutMirroredObject (op : AccessBlobArgCbPhyInstrOperand) :
    List (Option Nat × Nat) :=
  if op.modifier = "mut" then
    [(none, op.compute_local_dep_object.mut_mirrored_object)]
  else []

/-- Embeds `AccessBlobArgCbPhyInstrOperand::ForEachMut2MirroredObject`: invokes the
visitor once with `(nullptr, compute)` when `modifier_ == "mut2"`, zero times
otherwise. -/
def ForEachMut2MirroredObject (op : AccessBlobArgCbPhyInstrOperand) :
    List (Option Nat × Nat) :=
  if op.modifier = "mut2" then
    [(none, op.compute_local_dep_object.mut_mirrored_object)]
  else []

/-- Claim C2: for an operand whose modifier is one of `const`/`mut`/`mut2`,
exactly the matching enumerator invokes the visitor, exactly once, with the
infer argument null and the compute argument the operand's compute dependency
object; the other two enumerators invoke it zero times. -/
theorem access_operand_enumerators_match_tag (op : AccessBlobArgCbPhyInstrOperand) :
    (op.modifier = "const" →
       ForEachConstMirroredObject op
           = [(none, op.compute_local_dep_object.mut_mirrored_object)] ∧
       ForEachMutMirroredObject op = [] ∧
       ForEachMut2MirroredObject op = []) ∧
    (op.modifier = "mut" →
       ForEachMutMirroredObject op
           = [(none, op.compute_local_dep_object.mut_mirrored_object)] ∧
       ForEachConstMirroredObject op = [] ∧
       ForEachMut2MirroredObject op = []) ∧
    (op.modifier = "mut2" →
       ForEachMut2MirroredObject op
           = [(none, op.compute_local_dep_object.mut_mirrored_object)] ∧
       ForEachConstMirroredObject op = [] ∧
       ForEachMutMirroredObject op = []) := by
  refine ⟨?_, ?_, ?_⟩ <;> intro h <;>
    simp [ForEachConstMirroredObject, ForEachMutMirroredObject,
      ForEachMut2MirroredObject, h]

/-- Witness for C2: a concrete operand tagged `const` over mirrored object 7. -/
theorem access_operand_enumerators_match_tag_witness :
    ForEachConstMirroredObject ⟨"const", ⟨7⟩⟩ = [(none, 7)] ∧
    ForEachMutMirroredObject ⟨"const", ⟨7⟩⟩ = [] ∧
    ForEachMut2MirroredObject ⟨"const", ⟨7⟩⟩ = [] :=
  (access_operand_enumerators_match_tag ⟨"const", ⟨7⟩⟩).1 rfl

/-- Claim C9: for an operand whose modifier is none of `const`, `mut`, `mut2`,
all three enumerators invoke the visitor zero times and return normally; the
invalid tag is silently ignored. -/
theorem invalid_modifier_all_enumerators_empty (op : AccessBlobArgCbPhyInstrOperand)
    (hc : op.modifier ≠ "const") (hm : op.modifier ≠ "mut")
    (hm2 : op.modifier ≠ "mut2") :
    ForEachConstMirroredObject op = [] ∧
    ForEachMutMirroredObject op = [] ∧
    ForEachMut2MirroredObject op = [] := by
  simp [ForEachConstMirroredObject, ForEachMutMirroredObject,
    ForEachMut2MirroredObject, hc, hm, hm2]

/-- Witness for C9: the unknown modifier string `bogus`. -/
theorem invalid_modifier_all_enumerators_empty_witness :
    ForEachConstMirroredObject ⟨"bogus", ⟨3⟩⟩ = [] ∧
    ForEachMutMirroredObject ⟨"bogus", ⟨3⟩⟩ = [] ∧
    ForEachMut2MirroredObject ⟨"bogus", ⟨3⟩⟩ = [] :=
  invalid_modifier_all_enumerators_empty ⟨"bogus", ⟨3⟩⟩
    (by decide) (by decide) (by decide)

end OneflowVM

namespace OneflowIPC

/-! ## SharedMemory

Embeds `oneflow/core/ipc/shared_memory.cpp`.  The POSIX shared-memory
namespace, the forced outcomes of `shm_open` (OS nondeterminism such as
`EMFILE`, made explicit per name; the errno `0` entry means no forced
failure), the established memory mappings and the address allocator form an
explicit operating-system state.  `mmap(NULL, size, PROT_READ | PROT_WRITE,
MAP_SHARED, fd, 0)` returns a fresh nonzero address and records a read/write
mapping; `posix_fallocate(fd, 0, size)` extends a freshly created (empty)
object with zero bytes, matching POSIX `ftruncate`/`fallocate` semantics for
newly allocated space.  A `SharedMemory` handle stores the mapped address
(`0` modelling `nullptr`), the name and the size, exactly the fields
`buf_`, `name_`, `size_` of the C++ class. -/

def EEXIST : Nat := 17

def ENOENT : Nat := 2

structure ShmObject where
  size : Nat
  content : List Nat
deriving DecidableEq, Repr

structure Mapping where
  addr : Nat
  len : Nat
  prot_read : Bool
  prot_write : Bool
deriving DecidableEq, Repr

structure OsState where
  objects : List (String × ShmObject)
  openErrors : List (String × Nat)
  mappings : List Mapping
  nextAddr : Nat
deriving DecidableEq, Repr

def lookupName : List (String × ShmObject) → String → Option ShmObject
  | [], _ => none
  | kv :: rest, n => if kv.1 = n then some kv.2 else lookupName rest n

def lookupErr : List (String × Nat) → String → Option Nat
  | [], _ => none
  | kv :: rest, n => if kv.1 = n then some kv.2 else lookupErr rest n

/-- Models `shm_unlink`: removes the name from the namespace. -/
def removeName : List (String × ShmObject) → String → List (String × ShmObject)
  | [], _ => []
  | kv :: rest, n =>
    if kv.1 = n then removeName rest n else kv :: removeName rest n

/-- Applies `g` to the object registered under `name` (used for operations
through a file descriptor opened on `name`). -/
def updateName (l : List (String × ShmObject)) (name : String)
    (g : ShmObject → ShmObject) : List (String × ShmObject) :=
  l.map fun kv => if kv.1 = name then (kv.1, g kv.2) else kv

/-- Embeds `ShmOpen(const std::string& shm_name, bool create, int* fd)`:
`shm_open(shm_name, (create ? O_CREAT : 0) | O_EXCL | O_RDWR, …)`, returning
the errno (`0` on success).  With `create`, an existing name yields `EEXIST`
and a fresh name registers a new zero-sized object; without `create`, a
missing name yields `ENOENT`.  The file descriptor is modelled by the name
itself. -/
def shmOpenRaw (sys : OsState) (name : String) (create : Bool) : Nat × OsState :=
  let forced := (lookupErr sys.openErrors name).getD 0
  if forced ≠ 0 then (forced, sys)
  else
    match lookupName sys.objects name with
    | some _ => if create then (EEXIST, sys) else (0, sys)
    | none =>
      if create then (0, { sys with objects := (name, ⟨0, []⟩) :: sys.objects })
      else (ENOENT, sys)

/-- Embeds `ShmOpen(std::string* shm_name, int* fd)`: the anonymous-name loop.  Each
iteration sets `*shm_name = "/ofshm_" + GenAlphaNumericString(8)` and retries
exactly while the creating `ShmOpen` reports `EEXIST`.  `GenAlphaNumericString`
(`oneflow/core/common/str_util`) is not part of the sources; modelled from the
spec: its successive random outputs are supplied as the stream `rands`, and an
exhausted stream (`none`) models the unbounded retry never finding a free
name. -/
def ShmOpenAnon (sys : OsState) : List String → Option (String × Nat × OsState)
  | [] => none
  | r :: rest =>
    let shm_name := "/ofshm_" ++ r
    let p := shmOpenRaw sys shm_name true
    if p.1 ≠ EEXIST then some (shm_name, p.1, p.2) else ShmOpenAnon p.2 rest

/-- Models `posix_fallocate(fd, 0, shm_size)` on the object behind `fd`: newly
allocated bytes read as zero. -/
def posix_fallocate (obj : ShmObject) (shm_size : Nat) : ShmObject :=
  if obj.size < shm_size then
    ⟨shm_size, obj.content ++ List.replicate (shm_size - obj.size) 0⟩
  else obj

def fallocateName (sys : OsState) (name : String) (shm_size : Nat) : OsState :=
  { sys with objects := updateName sys.objects name (posix_fallocate · shm_size) }

/-- Embeds `ShmMap(fd, shm_size, &ptr)`: `mmap(NULL, shm_size, PROT_READ |
PROT_WRITE, MAP_SHARED, fd, 0)` — allocates a fresh nonzero address and
records a read/write mapping of `shm_size` bytes. -/
def ShmMap (sys : OsState) (shm_size : Nat) : Nat × OsState :=
  (sys.nextAddr,
   { sys with
     mappings := ⟨sys.nextAddr, shm_size, true, true⟩ :: sys.mappings
     nextAddr := sys.nextAddr + shm_size + 1 })

/-- Models `std::memset(ptr, 0, shm_size)` through the fresh mapping of the object
registered under `name`: the first `shm_size` bytes become zero. -/
def memsetZero (sys : OsState) (name : String) (shm_size : Nat) : OsState :=
  { sys with
    objects := updateName sys.objects name
      fun obj => ⟨obj.size, List.replicate shm_size 0 ++ obj.content.drop shm_size⟩ }

structure SharedMemory where
  buf : Nat
  name : String
  size : Nat
deriving DecidableEq, Repr

/-- The tail of the create-form `SharedMemory::Open` after a successful
`ShmOpen`: `posix_fallocate`, `ShmMap`, `close(fd)` (a no-op on the model
state), `memset(ptr, 0, shm_size)`, then construct the handle. -/
def openCreateTail (sys : OsState) (shm_name : String) (shm_size : Nat) :
    OsState × SharedMemory :=
  let sys2 := fallocateName sys shm_name shm_size
  let p := ShmMap sys2 shm_size
  let sys4 := memsetZero p.2 shm_name shm_size
  (sys4, ⟨p.1, shm_name, shm_size⟩)

/-- Embeds `SharedMemory::Open(const Optional<std::string>& opt_shm_name, size_t
shm_size)` — the create form.  A named open calls the creating `ShmOpen`
directly; an anonymous open runs the retry loop (`rands` supplying the random
names).  The outer `none` marks the loop never terminating; `Except.error e`
wraps the errno of a failing OS call as `PCHECK_OR_RETURN` does. -/
def SharedMemory.Open (sys : OsState) (opt_shm_name : Option String)
    (rands : List String) (shm_size : Nat) :
    Option (Except Nat (OsState × SharedMemory)) :=
  match opt_shm_name with
  | some shm_name =>
    let p := shmOpenRaw sys shm_name true
    if p.1 ≠ 0 then some (Except.error p.1)
    else some (Except.ok (openCreateTail p.2 shm_name shm_size))
  | none =>
    match ShmOpenAnon sys rands with
    | none => none
    | some (shm_name, err, sys1) =>
      if err ≠ 0 then some (Except.error err)
      else some (Except.ok (openCreateTail sys1 shm_name shm_size))

/-- Embeds `SharedMemory::Open(const std::string& shm_name)` — the attach form:
non-creating `ShmOpen`, `fstat` to read the size, `ShmMap`, `close(fd)`. -/
def SharedMemory.OpenAttach (sys : OsState) (shm_name : String) :
    Except Nat (OsState × SharedMemory) :=
  let p := shmOpenRaw sys shm_name false
  if p.1 ≠ 0 then Except.error p.1
  else
    match lookupName p.2.objects shm_name with
    | none => Except.error ENOENT
    | some obj =>
      let q := ShmMap p.2 obj.size
      Except.ok (q.2, ⟨q.1, shm_name, obj.size⟩)

/-- The OS calls a `SharedMemory` member function performs on its own
region. -/
inductive OsCall where
  | munmapCall (addr len : Nat)
  | shmUnlinkCall (name : String)
deriving DecidableEq, Repr

/-- Embeds `SharedMemory::Close()`: `munmap(buf_, size_)` — unconditionally, there
is no null check here — then `buf_ = nullptr`.  Returns the new handle state
and the OS calls performed. -/
def SharedMemory.Close (shm : SharedMemory) : SharedMemory × List OsCall :=
  ({ shm with buf := 0 }, [OsCall.munmapCall shm.buf shm.size])

/-- Embeds `SharedMemory::~SharedMemory()`: `if (buf_ != nullptr) CHECK_JUST(Close())`
— the OS calls the destructor performs. -/
def SharedMemory.destructorCalls (shm : SharedMemory) : List OsCall :=
  if shm.buf ≠ 0 then (SharedMemory.Close shm).2 else []

/-- Embeds `SharedMemory::UnlinkByName(const std::string& name)`: `shm_unlink(name)`,
returning the errno (`ENOENT` when the name is absent) and the new namespace
state.  Mappings are untouched. -/
def SharedMemory.UnlinkByName (sys : OsState) (name : String) : Nat × OsState :=
  match lookupName sys.objects name with
  | none => (ENOENT, sys)
  | some _ => (0, { sys with objects := removeName sys.objects name })

/-- Embeds `SharedMemory::Unlink()`: `UnlinkByName(name_)`. -/
def SharedMemory.Unlink (sys : OsState) (shm : SharedMemory) : Nat × OsState :=
  SharedMemory.UnlinkByName sys shm.name


lemma lookupName_updateName (l : List (String × ShmObject)) (name : String)
    (g : ShmObject → ShmObject) :
    lookupName (updateName l name g) name = (lookupName l name).map g := by
  induction l with
  | nil => simp [lookupName, updateName]
  | cons kv rest ih =>
    by_cases hk : kv.1 = name
    · simp [lookupName, updateName, hk]
    · simp only [updateName, List.map_cons, if_neg hk]
      simp only [lookupName, if_neg hk]
      exact ih

lemma lookupName_removeName (l : List (String × ShmObject)) (name : String) :
    lookupName (removeName l name) name = none := by
  induction l with
  | nil => simp [lookupName, removeName]
  | cons kv rest ih =>
    by_cases hk : kv.1 = name
    · simp only [removeName, if_pos hk]
      exact ih
    · simp only [removeName, if_neg hk, lookupName, if_neg hk]
      exact ih

lemma shmOpenRaw_create_ok (sys : OsState) (name : String)
    (h : (shmOpenRaw sys name true).1 = 0) :
    (shmOpenRaw sys name true).2
      = { sys with objects := (name, ⟨0, []⟩) :: sys.objects } := by
  unfold shmOpenRaw at h ⊢
  by_cases hf : (lookupErr sys.openErrors name).getD 0 ≠ 0
  · simp [hf] at h
  · simp only [hf, if_neg, ite_false] at h ⊢
    cases hl : lookupName sys.objects name with
    | some obj => simp [hl, EEXIST] at h
    | none => simp [hl]

lemma shmOpenRaw_err_frame (sys : OsState) (name : String) (create : Bool)
    (h : (shmOpenRaw sys name create).1 ≠ 0) :
    (shmOpenRaw sys name create).2 = sys := by
  unfold shmOpenRaw at h ⊢
  by_cases hf : (lookupErr sys.openErrors name).getD 0 ≠ 0
  · simp [hf]
  · simp only [hf, ite_false] at h ⊢
    cases hl : lookupName sys.objects name with
    | some obj => cases create <;> simp [hl] at h ⊢
    | none => cases create <;> simp [hl] at h ⊢

lemma ShmOpenAnon_ok : ∀ (rands : List String) (sys : OsState) (name : String)
    (sys1 : OsState), ShmOpenAnon sys rands = some (name, 0, sys1) →
    lookupName sys1.objects name = some ⟨0, []⟩ := by
  intro rands
  induction rands with
  | nil => intro sys name sys1 h; simp [ShmOpenAnon] at h
  | cons r rest ih =>
    intro sys name sys1 h
    simp only [ShmOpenAnon] at h
    by_cases hp : (shmOpenRaw sys ("/ofshm_" ++ r) true).1 ≠ EEXIST
    · rw [if_pos hp] at h
      simp only [Option.some.injEq, Prod.mk.injEq] at h
      obtain ⟨rfl, h0, rfl⟩ := h
      rw [shmOpenRaw_create_ok sys ("/ofshm_" ++ r) h0]
      simp [lookupName]
    · rw [if_neg hp] at h
      exact ih _ name sys1 h

lemma drop_replicate_eq_nil (n : Nat) : (List.replicate n (0 : Nat)).drop n = [] := by
  simp

lemma openCreateTail_spec (sys : OsState) (name : String) (shm_size : Nat)
    (hobj : lookupName sys.objects name = some ⟨0, []⟩) :
    (openCreateTail sys name shm_size).2 = ⟨sys.nextAddr, name, shm_size⟩ ∧
    lookupName (openCreateTail sys name shm_size).1.objects name
      = some ⟨shm_size, List.replicate shm_size 0⟩ ∧
    (openCreateTail sys name shm_size).1.mappings
      = ⟨sys.nextAddr, shm_size, true, true⟩ :: sys.mappings := by
  refine ⟨rfl, ?_, rfl⟩
  simp only [openCreateTail, memsetZero, ShmMap, fallocateName]
  rw [lookupName_updateName, lookupName_updateName, hobj]
  by_cases hsz : 0 < shm_size
  · simp [posix_fallocate, hsz, drop_replicate_eq_nil]
  · have hsz0 : shm_size = 0 := by omega
    subst hsz0
    simp [posix_fallocate]


/-- Claim C4: every successful create-form `SharedMemory::Open` (named or
anonymous) returns a handle recording exactly the requested size, backed by an
object whose every byte is zero, mapped read/write. -/
theorem open_create_size_zeroed_rw (sys : OsState) (opt_shm_name : Option String)
    (rands : List String) (shm_size : Nat) (sys' : OsState) (shm : SharedMemory)
    (h : SharedMemory.Open sys opt_shm_name rands shm_size
        = some (Except.ok (sys', shm))) :
    shm.size = shm_size ∧
    lookupName sys'.objects shm.name = some ⟨shm_size, List.replicate shm_size 0⟩ ∧
    Mapping.mk shm.buf shm_size true true ∈ sys'.mappings := by
  have key : ∀ (sys1 : OsState) (shm_name : String),
      lookupName sys1.objects shm_name = some ⟨0, []⟩ →
      (sys', shm) = openCreateTail sys1 shm_name shm_size →
      shm.size = shm_size ∧
      lookupName sys'.objects shm.name
        = some ⟨shm_size, List.replicate shm_size 0⟩ ∧
      Mapping.mk shm.buf shm_size true true ∈ sys'.mappings := by
    intro sys1 shm_name hobj heq
    obtain ⟨h1, h2, h3⟩ := openCreateTail_spec sys1 shm_name shm_size hobj
    have hsys : sys' = (openCreateTail sys1 shm_name shm_size).1 :=
      congrArg Prod.fst heq
    have hshm : shm = (openCreateTail sys1 shm_name shm_size).2 :=
      congrArg Prod.snd heq
    subst hsys
    subst hshm
    rw [h1, h3]
    exact ⟨rfl, h2, List.mem_cons_self _ _⟩
  cases opt_shm_name with
  | some shm_name =>
    simp only [SharedMemory.Open] at h
    by_cases hp : (shmOpenRaw sys shm_name true).1 ≠ 0
    · rw [if_pos hp] at h
      simp at h
    · push_neg at hp
      rw [if_neg (by simp [hp])] at h
      simp only [Option.some.injEq, Except.ok.injEq] at h
      refine key (shmOpenRaw sys shm_name true).2 shm_name ?_ h.symm
      rw [shmOpenRaw_create_ok sys shm_name hp]
      simp [lookupName]
  | none =>
    simp only [SharedMemory.Open] at h
    cases han : ShmOpenAnon sys rands with
    | none => rw [han] at h; simp at h
    | some trip =>
      obtain ⟨shm_name, err, sys1⟩ := trip
      rw [han] at h
      have h2 : (if err ≠ 0 then some (Except.error err)
          else some (Except.ok (openCreateTail sys1 shm_name shm_size)))
          = some (Except.ok (sys', shm)) := h
      by_cases herr : err ≠ 0
      · rw [if_pos herr] at h2
        simp at h2
      · push_neg at herr
        subst herr
        rw [if_neg (by simp)] at h2
        simp only [Option.some.injEq, Except.ok.injEq] at h2
        exact key sys1 shm_name (ShmOpenAnon_ok rands sys shm_name sys1 han) h2.symm

/-- Witness for C4: creating `/a` with size 2 in an empty namespace yields a
handle of size 2 over the zero-filled two-byte object, mapped read/write at
address 1. -/
theorem open_create_size_zeroed_rw_witness :
    (⟨1, "/a", 2⟩ : SharedMemory).size = 2 ∧
    lookupName [("/a", (⟨2, [0, 0]⟩ : ShmObject))] "/a"
      = some ⟨2, List.replicate 2 0⟩ ∧
    Mapping.mk 1 2 true true ∈ [Mapping.mk 1 2 true true] :=
  open_create_size_zeroed_rw ⟨[], [], [], 1⟩ (some "/a") [] 2
    ⟨[("/a", ⟨2, [0, 0]⟩)], [], [⟨1, 2, true, true⟩], 4⟩ ⟨1, "/a", 2⟩ rfl

/-- Claim C5: the anonymous-name loop retries (with a fresh generated name of
the form `/ofshm_` plus a generated suffix) exactly when the creating open
reports `EEXIST`; every non-`EEXIST` outcome — success or any other errno —
is returned immediately; whenever the stream of generated names contains one
whose open attempt does not report `EEXIST`, the loop terminates; and when the
generator yields 8-character suffixes (its `kNameLength` argument is 8), every
returned name is `/ofshm_` plus 8 characters. -/
theorem anonymous_open_retries_exactly_on_eexist :
    (∀ (sys : OsState) (r : String) (rest : List String),
       (shmOpenRaw sys ("/ofshm_" ++ r) true).1 = EEXIST →
       ShmOpenAnon sys (r :: rest) = ShmOpenAnon sys rest) ∧
    (∀ (sys : OsState) (r : String) (rest : List String),
       (shmOpenRaw sys ("/ofshm_" ++ r) true).1 ≠ EEXIST →
       ShmOpenAnon sys (r :: rest)
         = some ("/ofshm_" ++ r, (shmOpenRaw sys ("/ofshm_" ++ r) true).1,
             (shmOpenRaw sys ("/ofshm_" ++ r) true).2)) ∧
    (∀ (sys : OsState) (rands : List String),
       (∃ r ∈ rands, (shmOpenRaw sys ("/ofshm_" ++ r) true).1 ≠ EEXIST) →
       (ShmOpenAnon sys rands).isSome) ∧
    (∀ (sys sys1 : OsState) (rands : List String) (name : String) (err : Nat),
       ShmOpenAnon sys rands = some (name, err, sys1) →
       ∃ r ∈ rands, name = "/ofshm_" ++ r) ∧
    (∀ (sys sys1 : OsState) (rands : List String) (name : String) (err : Nat),
       (∀ r ∈ rands, r.length = 8) →
       ShmOpenAnon sys rands = some (name, err, sys1) →
       name.length = 15) := by
  have part3 : ∀ (rands : List String) (sys : OsState),
      (∃ r ∈ rands, (shmOpenRaw sys ("/ofshm_" ++ r) true).1 ≠ EEXIST) →
      (ShmOpenAnon sys rands).isSome := by
    intro rands
    induction rands with
    | nil => intro sys hex; simp at hex
    | cons r rest ih =>
      intro sys hex
      simp only [ShmOpenAnon]
      by_cases hp : (shmOpenRaw sys ("/ofshm_" ++ r) true).1 ≠ EEXIST
      · rw [if_pos hp]
        simp
      · rw [if_neg hp]
        push_neg at hp
        rw [shmOpenRaw_err_frame sys ("/ofshm_" ++ r) true (by rw [hp]; decide)]
        apply ih
        rcases hex with ⟨r1, hr1, hne⟩
        rcases List.mem_cons.mp hr1 with rfl | hr1
        · exact absurd hp hne
        · exact ⟨r1, hr1, hne⟩
  have part4 : ∀ (rands : List String) (sys sys1 : OsState) (name : String)
      (err : Nat), ShmOpenAnon sys rands = some (name, err, sys1) →
      ∃ r ∈ rands, name = "/ofshm_" ++ r := by
    intro rands
    induction rands with
    | nil => intro sys sys1 name err h; simp [ShmOpenAnon] at h
    | cons r rest ih =>
      intro sys sys1 name err h
      simp only [ShmOpenAnon] at h
      by_cases hp : (shmOpenRaw sys ("/ofshm_" ++ r) true).1 ≠ EEXIST
      · rw [if_pos hp] at h
        simp only [Option.some.injEq, Prod.mk.injEq] at h
        exact ⟨r, List.mem_cons_self _ _, h.1.symm⟩
      · rw [if_neg hp] at h
        obtain ⟨r1, hr1, hform⟩ := ih _ sys1 name err h
        exact ⟨r1, List.mem_cons_of_mem _ hr1, hform⟩
  have part5 : ∀ (sys sys1 : OsState) (rands : List String) (name : String)
      (err : Nat), (∀ r ∈ rands, r.length = 8) →
      ShmOpenAnon sys rands = some (name, err, sys1) → name.length = 15 := by
    intro sys sys1 rands name err hlen h
    obtain ⟨r, hr, rfl⟩ := part4 rands sys sys1 name err h
    simp [String.length_append, hlen r hr]
    rfl
  refine ⟨?_, ?_, fun sys rands hex => part3 rands sys hex,
    fun sys sys1 rands name err h => part4 rands sys sys1 name err h, part5⟩
  · intro sys r rest h
    simp only [ShmOpenAnon]
    rw [if_neg (fun hn => hn h)]
    rw [shmOpenRaw_err_frame sys ("/ofshm_" ++ r) true (by rw [h]; decide)]
  · intro sys r rest h
    simp only [ShmOpenAnon]
    rw [if_pos h]

/-- Witness for C5: on an empty namespace the very first generated name
succeeds (errno 0, not `EEXIST`), so the loop returns it immediately. -/
theorem anonymous_open_retries_exactly_on_eexist_witness :
    ShmOpenAnon ⟨[], [], [], 1⟩ ["abc"]
      = some ("/ofshm_" ++ "abc",
          (shmOpenRaw ⟨[], [], [], 1⟩ ("/ofshm_" ++ "abc") true).1,
          (shmOpenRaw ⟨[], [], [], 1⟩ ("/ofshm_" ++ "abc") true).2) ∧
    (ShmOpenAnon ⟨[], [], [], 1⟩ ["abc"]).isSome :=
  ⟨anonymous_open_retries_exactly_on_eexist.2.1 ⟨[], [], [], 1⟩ "abc" []
      (by decide),
   anonymous_open_retries_exactly_on_eexist.2.2.1 ⟨[], [], [], 1⟩ ["abc"]
      ⟨"abc", by decide, by decide⟩⟩

/-- Claim C7: after `UnlinkByName` on a name (assuming no independently forced
`shm_open` failure on that name), the attach-form `Open` on the same name
fails with `ENOENT` — the not-found error — and the unlink leaves every
already-established mapping unchanged. -/
theorem unlink_then_attach_not_found (sys : OsState) (name : String)
    (hforced : lookupErr sys.openErrors name = none) :
    SharedMemory.OpenAttach (SharedMemory.UnlinkByName sys name).2 name
      = Except.error ENOENT ∧
    (SharedMemory.UnlinkByName sys name).2.mappings = sys.mappings := by
  have hobj : lookupName (SharedMemory.UnlinkByName sys name).2.objects name
      = none := by
    unfold SharedMemory.UnlinkByName
    cases hl : lookupName sys.objects name with
    | none => simpa using hl
    | some obj => simpa using lookupName_removeName sys.objects name
  have herr : (SharedMemory.UnlinkByName sys name).2.openErrors
      = sys.openErrors := by
    unfold SharedMemory.UnlinkByName
    cases hl : lookupName sys.objects name <;> simp
  have hraw : shmOpenRaw (SharedMemory.UnlinkByName sys name).2 name false
      = (ENOENT, (SharedMemory.UnlinkByName sys name).2) := by
    unfold shmOpenRaw
    rw [herr, hforced, hobj]
    simp
  constructor
  · unfold SharedMemory.OpenAttach
    rw [hraw]
    simp [ENOENT]
  · unfold SharedMemory.UnlinkByName
    cases hl : lookupName sys.objects name <;> simp

/-- Witness for C7: unlinking `/a` from a namespace that holds it, then
attaching to `/a`, fails with `ENOENT`; the (empty) mapping table is
untouched. -/
theorem unlink_then_attach_not_found_witness :
    SharedMemory.OpenAttach
        (SharedMemory.UnlinkByName ⟨[("/a", ⟨2, [0, 0]⟩)], [], [], 1⟩ "/a").2 "/a"
      = Except.error ENOENT ∧
    (SharedMemory.UnlinkByName ⟨[("/a", ⟨2, [0, 0]⟩)], [], [], 1⟩ "/a").2.mappings
      = (⟨[("/a", ⟨2, [0, 0]⟩)], [], [], 1⟩ : OsState).mappings :=
  unlink_then_attach_not_found ⟨[("/a", ⟨2, [0, 0]⟩)], [], [], 1⟩ "/a" rfl

/-- Claim C8: a destructor running while the region is still mapped performs
exactly the unmap of that region; a destructor on an already-closed handle
performs nothing; and the destructor never issues `shm_unlink`. -/
theorem destructor_closes_no_unlink (shm : SharedMemory) :
    (shm.buf ≠ 0 →
       SharedMemory.destructorCalls shm = [OsCall.munmapCall shm.buf shm.size]) ∧
    (shm.buf = 0 → SharedMemory.destructorCalls shm = []) ∧
    (∀ n : String, OsCall.shmUnlinkCall n ∉ SharedMemory.destructorCalls shm) := by
  refine ⟨?_, ?_, ?_⟩
  · intro h
    simp [SharedMemory.destructorCalls, SharedMemory.Close, h]
  · intro h
    simp [SharedMemory.destructorCalls, h]
  · intro n
    by_cases h : shm.buf ≠ 0 <;>
      simp [SharedMemory.destructorCalls, SharedMemory.Close, h]

/-- Witness for C8: a mapped handle at address 5 of size 7 unmaps exactly
once on destruction; a closed handle performs no call. -/
theorem destructor_closes_no_unlink_witness :
    SharedMemory.destructorCalls ⟨5, "/a", 7⟩ = [OsCall.munmapCall 5 7] ∧
    SharedMemory.destructorCalls ⟨0, "/a", 7⟩ = [] :=
  ⟨(destructor_closes_no_unlink ⟨5, "/a", 7⟩).1 (by decide),
   (destructor_closes_no_unlink ⟨0, "/a", 7⟩).2.1 rfl⟩

/-- Counterexample for C3 as stated: on a handle whose `Close()` already
succeeded (pointer nulled), a second direct call to `Close()` still performs
an unmap — `munmap(nullptr, size_)` — because the null check guarding
double-unmap lives in the destructor, not in `Close()`. -/
theorem close_twice_still_calls_munmap :
    (SharedMemory.Close (SharedMemory.Close ⟨5, "/x", 4096⟩).1).2
        = [OsCall.munmapCall 0 4096] ∧
    (SharedMemory.Close (SharedMemory.Close ⟨5, "/x", 4096⟩).1).2 ≠ [] := by
  constructor
  · rfl
  · decide

/-- Claim C3 (amended): `Close()` unconditionally calls `munmap` on the stored
pointer and then nulls it; the idempotent null-check guard lives in the
destructor, so destruction after a `Close()` performs no further unmap, while
a second direct `Close()` call invokes `munmap` again, now on the null
pointer. -/
theorem close_unmaps_guard_in_destructor (shm : SharedMemory) :
    (SharedMemory.Close shm).2 = [OsCall.munmapCall shm.buf shm.size] ∧
    (SharedMemory.Close shm).1.buf = 0 ∧
    SharedMemory.destructorCalls (SharedMemory.Close shm).1 = [] ∧
    (SharedMemory.Close (SharedMemory.Close shm).1).2
      = [OsCall.munmapCall 0 shm.size] := by
  refine ⟨rfl, rfl, ?_, rfl⟩
  simp [SharedMemory.destructorCalls, SharedMemory.Close]

end OneflowIPC
